import Mathlib

/-!
Verification of the stereo combination engine of `ctapipe`
(`src/ctapipe/ml/stereo_combination.py`).

The embedding models floating point numbers as exact reals, with `Option ℝ`
wherever the source can hold `NaN` (`none` models `NaN`).  Python exceptions
are modelled with `Except PyError`.  Exact-real division by zero (Lean's
`x / 0 = 0`) replaces the IEEE `inf`/`NaN` results of dividing by zero; the
claims settled here never depend on those corner values except where noted
in comments.
-/

/-- Python exceptions that the combiner code can raise. -/
inductive PyError
  | valueError
  | typeError
  | attributeError
  | zeroDivisionError
  | notImplementedError
deriving DecidableEq, Repr

/-- NaN-poisoning addition used to model `np.add` on arrays holding NaN:
`none` models NaN and absorbs. -/
def optAdd (a b : Option ℝ) : Option ℝ :=
  match a, b with
  | some x, some y => some (x + y)
  | _, _ => none

/-- NaN-poisoning multiplication used to model `np.multiply` on arrays
holding NaN: `none` models a non-finite float and absorbs. -/
def optMul (a b : Option ℝ) : Option ℝ :=
  match a, b with
  | some x, some y => some (x * y)
  | _, _ => none

/-- NaN-poisoning sum of a float array that may hold non-finite entries. -/
noncomputable def optSum (l : List (Option ℝ)) : Option ℝ :=
  l.foldr optAdd (some 0)

/-- Model of `np.max` / `ndarray.max()` on a 1-D array.  NumPy raises on an
empty array; every call site in the source guards against the empty case, so
the value returned for `[]` here is never observed. -/
noncomputable def npMax : List ℝ → ℝ
  | [] => 0
  | a :: t => t.foldl max a

/-- Model of `np.average(values, weights=weights)` (1-D): raises
`ZeroDivisionError` when the weights sum to zero, otherwise returns
`sum(values * weights) / sum(weights)`. -/
noncomputable def npAverage (values weights : List ℝ) : Except PyError ℝ :=
  let scl := weights.sum
  if scl = 0 then .error .zeroDivisionError
  else .ok (((values.zip weights).map fun p => p.1 * p.2).sum / scl)

/-- Model of `np.cov(values, aweights=weights)` for a 1-D sample with the
default `ddof=1`.  NumPy first takes the weighted average (raising
`ZeroDivisionError` when the weights sum to zero), computes the
normalisation `fact = sum(w) - sum(w*w)/sum(w)`, and when `fact <= 0` warns
and divides by zero; with non-negative weights the numerator is then zero as
well and the result is NaN (modelled as `none`). -/
noncomputable def npCov (values weights : List ℝ) : Except PyError (Option ℝ) :=
  let w_sum := weights.sum
  if w_sum = 0 then .error .zeroDivisionError
  else
    let avg := ((values.zip weights).map fun p => p.1 * p.2).sum / w_sum
    let fact := w_sum - (weights.map fun w => w * w).sum / w_sum
    if fact ≤ 0 then .ok none
    else .ok (some ((((values.map fun v => v - avg).zip weights).map
      fun p => p.2 * p.1 ^ 2).sum / fact))

/-- Model of `np.average(values, weights=weights)` when the weight array may
hold non-finite entries (NaN / inf, modelled as `none`), as produced by
`weights / weights.max()` with a zero maximum: the weight sum is then
non-finite, the `scl == 0.0` check is false so nothing is raised, and the
returned mean is NaN. -/
noncomputable def npAverageNaN (values : List ℝ) (weights : List (Option ℝ)) :
    Except PyError (Option ℝ) :=
  match optSum weights with
  | Option.none => .ok Option.none
  | some scl =>
    if scl = 0 then .error .zeroDivisionError
    else .ok (some (((values.zip weights).map
      fun p => p.1 * p.2.getD 0).sum / scl))

/-- Model of `np.cov(values, aweights=weights)` when the weight array may
hold non-finite entries: the internal weighted average propagates NaN
without raising, `fact` is NaN, the `fact <= 0` comparison is false, and
the covariance is NaN. -/
noncomputable def npCovNaN (values : List ℝ) (weights : List (Option ℝ)) :
    Except PyError (Option ℝ) :=
  match optSum weights with
  | Option.none => .ok Option.none
  | some w_sum =>
    if w_sum = 0 then .error .zeroDivisionError
    else
      let wr := weights.map fun o => o.getD 0
      let avg := ((values.zip wr).map fun p => p.1 * p.2).sum / w_sum
      let fact := w_sum - (wr.map fun w => w * w).sum / w_sum
      if fact ≤ 0 then .ok Option.none
      else .ok (some ((((values.map fun v => v - avg).zip wr).map
        fun p => p.2 * p.1 ^ 2).sum / fact))

/-- Two-argument arctangent, as used by astropy's Cartesian-to-spherical
conversion (`atan2`); `Complex.arg ⟨x, y⟩` is `atan2 y x` with range
`(-π, π]`. -/
noncomputable def arctan2 (y x : ℝ) : ℝ := Complex.arg ⟨x, y⟩

/-- Conversion of an (alt, az) pair in degrees to a Cartesian unit vector,
as performed by `SkyCoord(...).cartesian.get_xyz()` on an `AltAz` frame. -/
noncomputable def altazToCartesian (alt az : ℝ) : ℝ × ℝ × ℝ :=
  let a := alt * Real.pi / 180
  let b := az * Real.pi / 180
  (Real.cos a * Real.cos b, Real.cos a * Real.sin b, Real.sin a)

/-- Conversion of a Cartesian vector back to an (alt, az) pair in degrees,
as performed by `represent_as(UnitSphericalRepresentation)` followed by
reading `alt`/`az` off the `AltAz` frame: `lat = atan2(z, hypot(x, y))`,
`lon = atan2(y, x)` wrapped into `[0, 360)`. -/
noncomputable def cartesianToAltAz (x y z : ℝ) : ℝ × ℝ :=
  let lat := arctan2 z (Real.sqrt (x ^ 2 + y ^ 2))
  let lon := arctan2 y x
  (lat * 180 / Real.pi,
    (if lon < 0 then lon + 2 * Real.pi else lon) * 180 / Real.pi)

/-- Weighting strategies of `StereoMeanCombiner.weights`
(`CaselessStrEnum(["none", "intensity", "konrad"])`). -/
inductive Weights
  | none
  | intensity
  | konrad
deriving DecidableEq, Repr

/-- Hillas shower-image parameters used for weighting
(`data.hillas.intensity`, `.length`, `.width`). -/
structure HillasParameters where
  intensity : ℝ
  width : ℝ
  length : ℝ

/-- The `ImageParametersContainer` stored at `event.dl1.tel[tel_id].parameters`;
only the `hillas` sub-container is read by the combiner. -/
structure ImageParameters where
  hillas : HillasParameters

/-- One row of the table passed to `predict_table`: the identifying triple,
the Hillas columns used for weighting, the per-telescope predicted values
for each quantity and the validity flag `{prefix}_tel_is_valid` of the
quantity being combined. -/
structure MonoRow where
  obs_id : ℤ
  event_id : ℤ
  tel_id : ℤ
  hillas_intensity : ℝ
  hillas_width : ℝ
  hillas_length : ℝ
  tel_energy : ℝ
  tel_prediction : ℝ
  tel_alt : ℝ
  tel_az : ℝ
  tel_is_valid : Bool

/-- The scalar weight computed by the `Container` branch of
`StereoMeanCombiner._calculate_weights` (lines 104-111). -/
noncomputable def weight_of_parameters (w : Weights) (data : ImageParameters) : ℝ :=
  match w with
  | .intensity => data.hillas.intensity
  | .konrad => data.hillas.intensity * data.hillas.length / data.hillas.width
  | .none => 1

/-- The weight column computed by the `Table` branch of
`StereoMeanCombiner._calculate_weights` (lines 113-124). -/
noncomputable def weights_of_table (w : Weights) (data : List MonoRow) : List ℝ :=
  match w with
  | .intensity => data.map (fun r => r.hillas_intensity)
  | .konrad => data.map
      (fun r => r.hillas_intensity * r.hillas_length / r.hillas_width)
  | .none => List.replicate data.length 1

/-- Possible dynamic types of the `data` argument of `_calculate_weights`:
a `ctapipe.core.Container`, an `astropy.table.Table`, or anything else. -/
inductive Dl1Input
  | container (data : ImageParameters)
  | table (data : List MonoRow)
  | other
deriving Nonempty

/-- Result of `_calculate_weights`: a scalar (container branch), a column
(table branch), or the `TypeError` raised for any other input type. -/
inductive WeightsResult
  | scalar (x : ℝ)
  | column (xs : List ℝ)
  | typeError

/-- `StereoMeanCombiner._calculate_weights` (lines 101-128): dispatch on the
dynamic type of `data`, raising `TypeError` when it is neither a `Container`
nor a `Table`. -/
noncomputable def calculate_weights (w : Weights) (data : Dl1Input) : WeightsResult :=
  match data with
  | .container d => .scalar (weight_of_parameters w d)
  | .table rows => .column (weights_of_table w rows)
  | .other => .typeError

/-- Mono energy prediction (`ReconstructedEnergyContainer` as filled by a
telescope-wise reconstructor: only `energy` in TeV and `is_valid` are read). -/
structure MonoEnergy where
  energy : ℝ
  is_valid : Bool

/-- Mono classification prediction (`ParticleClassificationContainer`). -/
structure MonoClassification where
  prediction : ℝ
  is_valid : Bool

/-- Mono geometry prediction (`ReconstructedGeometryContainer`): alt and az
in degrees. -/
structure MonoGeometry where
  alt : ℝ
  az : ℝ
  is_valid : Bool

/-- The per-telescope DL2 record `event.dl2.tel[tel_id]` for the configured
algorithm: one mono prediction per quantity. -/
structure TelReconstructed where
  energy : MonoEnergy
  classification : MonoClassification
  geometry : MonoGeometry

/-- Modelled from the spec: the relevant slice of `ArrayEventContainer`,
whose definition lives in `ctapipe/containers.py` (not under `src/`).
`dl1tel` is the mapping `event.dl1.tel`, an insertion-ordered map from
telescope id to the DL1 record; the stored value is the record's
`parameters` field, which may be unset (`none`).  `dl2tel` is
`event.dl2.tel` restricted to the configured algorithm. -/
structure ArrayEvent where
  dl1tel : List (ℤ × Option ImageParameters)
  dl2tel : List (ℤ × TelReconstructed)

/-- Modelled from the spec: `event.dl1.tel` is a ctapipe `Map`
(a `defaultdict`), so indexing a missing telescope id yields a fresh default
DL1 record whose `parameters` field is unset; per the spec, a telescope
with no image-shape data available must fall back to weight 1. -/
def dl1Parameters (dl1 : List (ℤ × Option ImageParameters)) (tid : ℤ) :
    Option ImageParameters :=
  (List.lookup tid dl1).getD Option.none

/-- The accumulation loop of `_combine_energy` (lines 135-144): for each
telescope with a valid mono energy, append its energy value, raise
`ValueError` when the telescope is absent from `event.dl1.tel`, and compute
its weight from the DL1 parameters (`_calculate_weights` raises `TypeError`
when `parameters` is unset, i.e. `None`). -/
noncomputable def collect_energy (w : Weights)
    (dl1 : List (ℤ × Option ImageParameters)) :
    List (ℤ × TelReconstructed) → Except PyError (List ℤ × List ℝ × List ℝ)
  | [] => .ok ([], [], [])
  | (tid, r) :: rest =>
    if r.energy.is_valid then
      match List.lookup tid dl1 with
      | Option.none => .error .valueError
      | some Option.none => .error .typeError
      | some (some p) =>
        (collect_energy w dl1 rest).map fun acc =>
          (tid :: acc.1, r.energy.energy :: acc.2.1,
            weight_of_parameters w p :: acc.2.2)
    else collect_energy w dl1 rest

/-- The accumulation loop of `_combine_classification` (lines 178-184): for
each telescope with a valid mono classification, append its prediction and
the weight `self._calculate_weights(dl1) if dl1 else 1`, where `dl1` is
`event.dl1.tel[tel_id].parameters`. -/
noncomputable def collect_classification (w : Weights)
    (dl1 : List (ℤ × Option ImageParameters)) :
    List (ℤ × TelReconstructed) → List ℤ × List ℝ × List ℝ
  | [] => ([], [], [])
  | (tid, r) :: rest =>
    if r.classification.is_valid then
      let w0 := match dl1Parameters dl1 tid with
        | some p => weight_of_parameters w p
        | Option.none => 1
      let acc := collect_classification w dl1 rest
      (tid :: acc.1, r.classification.prediction :: acc.2.1, w0 :: acc.2.2)
    else collect_classification w dl1 rest

/-- The accumulation loop of `_combine_disp` (lines 204-211), collecting
(alt, az) pairs of valid mono geometry predictions together with ids and
weights (same weight fallback as classification). -/
noncomputable def collect_disp (w : Weights)
    (dl1 : List (ℤ × Option ImageParameters)) :
    List (ℤ × TelReconstructed) → List ℤ × List (ℝ × ℝ) × List ℝ
  | [] => ([], [], [])
  | (tid, r) :: rest =>
    if r.geometry.is_valid then
      let w0 := match dl1Parameters dl1 tid with
        | some p => weight_of_parameters w p
        | Option.none => 1
      let acc := collect_disp w dl1 rest
      (tid :: acc.1, (r.geometry.alt, r.geometry.az) :: acc.2.1, w0 :: acc.2.2)
    else collect_disp w dl1 rest

/-- The normalisation `weights = weights / weights.max()` shared by
`_weighted_mean_ufunc` (line 44) and `_combine_energy` (line 148).  When the
maximum weight is zero every quotient is non-finite (`0/0` is NaN and
`w/0` is `±inf`), modelled as `none`; otherwise the quotient is the finite
real `w / max`. -/
noncomputable def usedWeights (weights : List ℝ) : List (Option ℝ) :=
  weights.map fun w =>
    if npMax weights = 0 then Option.none else some (w / npMax weights)

/-- Stereo energy prediction (`ReconstructedEnergyContainer` as filled by
the combiner); `none` models NaN. -/
structure StereoEnergy where
  energy : Option ℝ
  energy_uncert : Option ℝ
  telescopes : List ℤ
  is_valid : Bool

/-- Stereo classification prediction (`ParticleClassificationContainer`). -/
structure StereoClassification where
  prediction : Option ℝ
  telescopes : List ℤ
  is_valid : Bool

/-- Stereo geometry prediction (`ReconstructedGeometryContainer`), alt and
az in degrees; `none` models NaN. -/
structure StereoGeometry where
  alt : Option ℝ
  az : Option ℝ
  telescopes : List ℤ
  is_valid : Bool

/-- `StereoMeanCombiner._combine_energy` (lines 130-171): collect valid
values, ids, weights; when at least one value exists normalise the weights
by their maximum, optionally move to log space, take `np.average` and
`np.sqrt(np.cov(...))`, optionally exponentiate back, and mark the result
valid; otherwise fill NaN and mark invalid. -/
noncomputable def combine_energy (w : Weights) (log_target : Bool)
    (ev : ArrayEvent) : Except PyError StereoEnergy :=
  match collect_energy w ev.dl1tel ev.dl2tel with
  | .error e => .error e
  | .ok (ids, values, weights0) =>
    if 0 < values.length then
      let ws := usedWeights weights0
      let vals := if log_target then values.map Real.log else values
      match npAverageNaN vals ws with
      | .error e => .error e
      | .ok mean0 =>
        match npCovNaN vals ws with
        | .error e => .error e
        | .ok cov =>
          let std0 := cov.map Real.sqrt
          let mean := if log_target then mean0.map Real.exp else mean0
          let std := if log_target then std0.map Real.exp else std0
          .ok ⟨mean, std, ids, true⟩
    else .ok ⟨Option.none, Option.none, ids, false⟩

/-- `StereoMeanCombiner._combine_classification` (lines 173-196). -/
noncomputable def combine_classification (w : Weights) (ev : ArrayEvent) :
    Except PyError StereoClassification :=
  let acc := collect_classification w ev.dl1tel ev.dl2tel
  if 0 < acc.2.1.length then
    match npAverage acc.2.1 acc.2.2 with
    | .error e => .error e
    | .ok mean => .ok ⟨some mean, acc.1, true⟩
  else .ok ⟨Option.none, acc.1, false⟩

/-- `StereoMeanCombiner._combine_disp` (lines 198-243): convert the valid
(alt, az) pairs to Cartesian unit vectors, average each component with
`np.average`, convert the mean vector back to (alt, az), and mark valid;
with no valid prediction fill NaN and mark invalid. -/
noncomputable def combine_disp (w : Weights) (ev : ArrayEvent) :
    Except PyError StereoGeometry :=
  let acc := collect_disp w ev.dl1tel ev.dl2tel
  if 0 < acc.2.1.length then
    let carts := acc.2.1.map fun p => altazToCartesian p.1 p.2
    match npAverage (carts.map fun c => c.1) acc.2.2 with
    | .error e => .error e
    | .ok sx =>
      match npAverage (carts.map fun c => c.2.1) acc.2.2 with
      | .error e => .error e
      | .ok sy =>
        match npAverage (carts.map fun c => c.2.2) acc.2.2 with
        | .error e => .error e
        | .ok sz =>
          let altaz := cartesianToAltAz sx sy sz
          .ok ⟨some altaz.1, some altaz.2, acc.1, true⟩
  else .ok ⟨Option.none, Option.none, acc.1, false⟩

/-- The quantity selected by the `property` trait of the combiner. -/
inductive CombineProperty
  | energy
  | classification
  | geometry
deriving DecidableEq, Repr

/-- What `StereoMeanCombiner.__call__` attaches to the event. -/
inductive CallOutcome
  | energyOut (r : StereoEnergy)
  | classificationOut (r : StereoClassification)
  | geometryOut (r : StereoGeometry)

/-- `StereoMeanCombiner.__call__` (lines 245-256).  The first two branches
test `self.property`; the third branch (line 253) reads
`self.combine_property`, an attribute that does not exist — the configured
trait is named `property` (line 67) — so for the geometry quantity Python
raises `AttributeError` before `_combine_disp` can run. -/
noncomputable def call (p : CombineProperty) (w : Weights) (log_target : Bool)
    (ev : ArrayEvent) : Except PyError CallOutcome :=
  match p with
  | .energy => (combine_energy w log_target ev).map .energyOut
  | .classification => (combine_classification w ev).map .classificationOut
  | .geometry => .error .attributeError

/-- Lexicographic comparison on (obs_id, event_id) keys: the order used by
`np.unique` on the structured two-field array `mono[["obs_id", "event_id"]]`. -/
def keyLe (a b : ℤ × ℤ) : Prop := a.1 < b.1 ∨ (a.1 = b.1 ∧ a.2 ≤ b.2)

/-- Strict lexicographic comparison on keys. -/
def keyLt (a b : ℤ × ℤ) : Prop := a.1 < b.1 ∨ (a.1 = b.1 ∧ a.2 < b.2)

instance : DecidableRel keyLe := fun a b => by
  unfold keyLe; infer_instance

instance : DecidableRel keyLt := fun a b => by
  unfold keyLt; infer_instance

instance : IsTotal (ℤ × ℤ) keyLe :=
  ⟨by intro a b; unfold keyLe; omega⟩

instance : IsTrans (ℤ × ℤ) keyLe :=
  ⟨by intro a b c; unfold keyLe; omega⟩

instance : IsAntisymm (ℤ × ℤ) keyLe := by
  constructor
  intro a b hab hba
  unfold keyLe at hab hba
  have h1 : a.1 = b.1 := by omega
  have h2 : a.2 = b.2 := by omega
  exact Prod.ext h1 h2

/-- The composite (obs_id, event_id) key of a row. -/
def tableKey (r : MonoRow) : ℤ × ℤ := (r.obs_id, r.event_id)

/-- The sorted list of distinct keys computed by
`np.unique(mono_predictions[["obs_id", "event_id"]])` (sort-based
uniqueness, ascending lexicographic). -/
def uniqueSorted (keys : List (ℤ × ℤ)) : List (ℤ × ℤ) :=
  (keys.insertionSort keyLe).dedup

/-- The `array_events` result of `np.unique` in `predict_table`
(lines 271-275). -/
def array_events (rows : List MonoRow) : List (ℤ × ℤ) :=
  uniqueSorted (rows.map tableKey)

/-- The `indices` result of `np.unique(..., return_inverse=True)`: for each
input row, the position of its key in the sorted distinct key list. -/
def tableIndices (rows : List MonoRow) : List ℕ :=
  rows.map fun r => (array_events rows).indexOf (tableKey r)

/-- The `multiplicity` result of `np.unique(..., return_counts=True)`. -/
def groupMultiplicity (rows : List MonoRow) : List ℕ :=
  (array_events rows).map fun k => (rows.map tableKey).count k

/-- `valid_predictions = mono_predictions[valid]` (lines 268-269). -/
def validRows (rows : List MonoRow) : List MonoRow :=
  rows.filter fun r => r.tel_is_valid

/-- Boolean-mask selection `xs[mask]` of NumPy, positional. -/
def maskSelect {β : Type} (xs : List β) (mask : List Bool) : List β :=
  (xs.zip mask).filterMap fun p => if p.2 then some p.1 else Option.none

/-- `indices[valid]`: the group index of each valid row, in input order. -/
def validIndices (rows : List MonoRow) : List ℕ :=
  maskSelect (tableIndices rows) (rows.map fun r => r.tel_is_valid)

/-- `_calculate_ufunc_of_telescope_values` (lines 36-39): scatter-accumulate
`tel_data` into a zero-initialised buffer of `n_array_events` slots via
`ufunc.at`; generic in the ufunc like the source. -/
def calculate_ufunc_of_telescope_values {M : Type} (zero : M) (add : M → M → M)
    (tel_data : List M) (n_array_events : ℕ) (indices : List ℕ) : List M :=
  (indices.zip tel_data).foldl
    (fun acc p => acc.set p.1 (add (acc.getD p.1 zero) p.2))
    (List.replicate n_array_events zero)

/-- `_weighted_mean_ufunc` (lines 42-57): normalise the weights by their
maximum, scatter-add `values * weights` and `weights` per group, and divide
where the summed weights are positive, NaN elsewhere.  Values are NaN-aware
(`Option ℝ`) because the variance pass feeds arrays that can hold NaN. -/
noncomputable def weighted_mean_ufunc (tel_values : List (Option ℝ))
    (weights : List ℝ) (n_array_events : ℕ) (indices : List ℕ) :
    List (Option ℝ) :=
  let ws := usedWeights weights
  let sum_prediction := calculate_ufunc_of_telescope_values (some 0) optAdd
    ((tel_values.zip ws).map fun p => optMul p.1 p.2)
    n_array_events indices
  let sum_of_weights := calculate_ufunc_of_telescope_values (some (0 : ℝ))
    optAdd ws n_array_events indices
  (List.range n_array_events).map fun i =>
    match sum_of_weights.getD i (some 0) with
    | Option.none => Option.none
    | some s =>
      if 0 < s then (sum_prediction.getD i (some 0)).map fun q => q / s
      else Option.none

/-- `np.repeat(xs, mult)`: each element repeated by the matching count. -/
def npRepeat {β : Type} (xs : List β) (mult : List ℕ) : List β :=
  (xs.zip mult).foldr (fun p acc => List.replicate p.2 p.1 ++ acc) []

/-- The `tel_ids` accumulation loop of `predict_table` (lines 390-393). -/
def telescopesColumn (rows : List MonoRow) : List (List ℤ) :=
  ((validIndices rows).zip ((validRows rows).map fun r => r.tel_id)).foldl
    (fun acc p => acc.set p.1 (acc.getD p.1 [] ++ [p.2]))
    (List.replicate (array_events rows).length [])

/-- One output row of `predict_table` for the energy quantity. -/
structure StereoEnergyRow where
  obs_id : ℤ
  event_id : ℤ
  energy : Option ℝ
  energy_uncert : Option ℝ
  is_valid : Bool
  telescopes : List ℤ

/-- One output row of `predict_table` for the classification quantity. -/
structure StereoClassRow where
  obs_id : ℤ
  event_id : ℤ
  prediction : Option ℝ
  is_valid : Bool
  telescopes : List ℤ

/-- One output row of `predict_table` for the geometry quantity. -/
structure StereoGeomRow where
  obs_id : ℤ
  event_id : ℤ
  alt : Option ℝ
  az : Option ℝ
  is_valid : Bool
  telescopes : List ℤ

/-- The pair `(stereo_energy, std)` computed by the energy branch of
`predict_table` (lines 297-326), after the optional exponentiation back from
log space; `none` models the NaN fill of groups with no weight. -/
noncomputable def energy_stereo (w : Weights) (log_target : Bool)
    (rows : List MonoRow) : List (Option ℝ) × List (Option ℝ) :=
  let valid := validRows rows
  let n := (array_events rows).length
  let weights := weights_of_table w valid
  let idxv := validIndices rows
  if 0 < valid.length then
    let mono0 := valid.map fun r => r.tel_energy
    let mono := if log_target then mono0.map Real.log else mono0
    let se := weighted_mean_ufunc (mono.map some) weights n idxv
    let rep := maskSelect (npRepeat se (groupMultiplicity rows))
      (rows.map fun r => r.tel_is_valid)
    let dev := (mono.zip rep).map fun p => p.2.map fun m => (p.1 - m) ^ 2
    let variance := weighted_mean_ufunc dev weights n idxv
    let std := variance.map fun v => v.map Real.sqrt
    if log_target then
      (se.map fun v => v.map Real.exp, std.map fun v => v.map Real.exp)
    else (se, std)
  else (List.replicate n Option.none, List.replicate n Option.none)

/-- `StereoMeanCombiner.predict_table`, energy branch (lines 258-282 and
297-336): group over all input rows, weight the valid rows, compute the
grouped weighted mean (optionally in log space) and the grouped weighted
variance against the per-row repeated group mean, and set
`is_valid = isfinite(stereo_energy)`. -/
noncomputable def predict_table_energy (w : Weights) (log_target : Bool)
    (rows : List MonoRow) : List StereoEnergyRow :=
  let keys := array_events rows
  let pair := energy_stereo w log_target rows
  let tels := telescopesColumn rows
  (List.range keys.length).map fun i =>
    let k := keys.getD i (0, 0)
    { obs_id := k.1
      event_id := k.2
      energy := pair.1.getD i Option.none
      energy_uncert := pair.2.getD i Option.none
      is_valid := (pair.1.getD i Option.none).isSome
      telescopes := tels.getD i [] }

/-- The `stereo_predictions` column computed by the classification branch of
`predict_table` (lines 284-291). -/
noncomputable def class_stereo (w : Weights) (rows : List MonoRow) :
    List (Option ℝ) :=
  let valid := validRows rows
  let n := (array_events rows).length
  if 0 < valid.length then
    weighted_mean_ufunc ((valid.map fun r => r.tel_prediction).map some)
      (weights_of_table w valid) n (validIndices rows)
  else List.replicate n Option.none

/-- `StereoMeanCombiner.predict_table`, classification branch
(lines 284-295): grouped weighted mean of the valid predictions,
`is_valid = isfinite(stereo_predictions)`. -/
noncomputable def predict_table_classification (w : Weights)
    (rows : List MonoRow) : List StereoClassRow :=
  let keys := array_events rows
  let sp := class_stereo w rows
  let tels := telescopesColumn rows
  (List.range keys.length).map fun i =>
    let k := keys.getD i (0, 0)
    { obs_id := k.1
      event_id := k.2
      prediction := sp.getD i Option.none
      is_valid := (sp.getD i Option.none).isSome
      telescopes := tels.getD i [] }

/-- The per-group mean (alt, az) pairs computed by the geometry branch of
`predict_table` (lines 338-369): componentwise grouped weighted mean of the
Cartesian unit vectors, converted back per group; `none` models the NaN
coordinates of groups with no weight. -/
noncomputable def geometry_altaz (w : Weights) (rows : List MonoRow) :
    List (Option (ℝ × ℝ)) :=
  let valid := validRows rows
  let n := (array_events rows).length
  let weights := weights_of_table w valid
  let idxv := validIndices rows
  if 0 < valid.length then
    let carts := valid.map fun r => altazToCartesian r.tel_alt r.tel_az
    let sx := weighted_mean_ufunc ((carts.map fun c => c.1).map some)
      weights n idxv
    let sy := weighted_mean_ufunc ((carts.map fun c => c.2.1).map some)
      weights n idxv
    let sz := weighted_mean_ufunc ((carts.map fun c => c.2.2).map some)
      weights n idxv
    (List.range n).map fun i =>
      match sx.getD i Option.none, sy.getD i Option.none,
          sz.getD i Option.none with
      | some a, some b, some c => some (cartesianToAltAz a b c)
      | _, _, _ => Option.none
  else List.replicate n (Option.none : Option (ℝ × ℝ))

/-- `StereoMeanCombiner.predict_table`, geometry branch (lines 338-385):
convert valid (alt, az) rows to Cartesian unit vectors, compute the grouped
weighted mean of each component, convert back to (alt, az), and set
`is_valid = isfinite(alt) & isfinite(az)`. -/
noncomputable def predict_table_geometry (w : Weights) (rows : List MonoRow) :
    List StereoGeomRow :=
  let keys := array_events rows
  let altaz := geometry_altaz w rows
  let tels := telescopesColumn rows
  (List.range keys.length).map fun i =>
    let k := keys.getD i (0, 0)
    { obs_id := k.1
      event_id := k.2
      alt := (altaz.getD i Option.none).map fun p => p.1
      az := (altaz.getD i Option.none).map fun p => p.2
      is_valid := ((altaz.getD i Option.none).map fun p => p.1).isSome &&
        ((altaz.getD i Option.none).map fun p => p.2).isSome
      telescopes := tels.getD i [] }

/-- The maximum raw weight within one group (identified by its index). -/
noncomputable def groupMax (weights : List ℝ) (indices : List ℕ) (i : ℕ) : ℝ :=
  npMax (((indices.zip weights).filter fun p => p.1 = i).map fun p => p.2)

/-- Modelled from the spec's words (§4.3, refinement comparison with
`usedWeights`): each raw weight divided by the maximum weight of its own
group, with the same non-finite (`none`) reading as `usedWeights` when that
maximum is zero. -/
noncomputable def perGroupMaxWeights (weights : List ℝ) (indices : List ℕ) :
    List (Option ℝ) :=
  (indices.zip weights).map fun p =>
    if groupMax weights indices p.1 = 0 then Option.none
    else some (p.2 / groupMax weights indices p.1)

/-- Modelled from the spec's words (§4.3): the weighted mean of group `i`
computed with per-group-max-normalised weights, NaN when those weights sum
to zero (in particular when the group has no member). -/
noncomputable def perGroupNormalizedMean (values weights : List ℝ)
    (indices : List ℕ) (i : ℕ) : Option ℝ :=
  let grp := (indices.zip (values.zip weights)).filter fun p => p.1 = i
  let m := groupMax weights indices i
  let gw := (grp.map fun p => p.2.2 / m).sum
  let gv := (grp.map fun p => p.2.1 * (p.2.2 / m)).sum
  if 0 < gw then some (gv / gw) else Option.none

/-- The summed raw weight of the valid rows of group `i`; used to state
claims about empty or zero-weight groups. -/
noncomputable def groupRawWeightSum (weights : List ℝ) (indices : List ℕ)
    (i : ℕ) : ℝ :=
  (((indices.zip weights).filter fun p => p.1 = i).map fun p => p.2).sum

theorem getD_set_self {M : Type} (l : List M) (j : ℕ) (a d : M)
    (h : j < l.length) : (l.set j a).getD j d = a := by
  rw [List.getD_eq_getElem?_getD, List.getElem?_set]
  simp [h]

theorem getD_set_ne {M : Type} (l : List M) {i j : ℕ} (a d : M) (h : j ≠ i) :
    (l.set j a).getD i d = l.getD i d := by
  rw [List.getD_eq_getElem?_getD, List.getElem?_set, if_neg h,
    ← List.getD_eq_getElem?_getD]

theorem getD_replicate_self {M : Type} (n i : ℕ) (z : M) :
    (List.replicate n z).getD i z = z := by
  rw [List.getD_eq_getElem?_getD]
  rcases lt_or_ge i n with h | h
  · rw [List.getElem?_eq_getElem (by simpa using h)]
    simp [List.getElem_replicate]
  · rw [List.getElem?_eq_none (by simpa using h)]
    rfl

theorem scatterFold_length {M : Type} (zero : M) (add : M → M → M) :
    ∀ (l : List (ℕ × M)) (init : List M),
      (l.foldl (fun acc p => acc.set p.1 (add (acc.getD p.1 zero) p.2))
        init).length = init.length := by
  intro l
  induction l with
  | nil => intro init; rfl
  | cons p t ih =>
    intro init
    rw [List.foldl_cons, ih, List.length_set]

theorem scatterFold_getD {M : Type} (zero : M) (add : M → M → M) :
    ∀ (l : List (ℕ × M)) (init : List M) (i : ℕ), i < init.length →
      (∀ p ∈ l, p.1 < init.length) →
      (l.foldl (fun acc p => acc.set p.1 (add (acc.getD p.1 zero) p.2))
          init).getD i zero
        = (l.filter fun p => p.1 = i).foldl (fun a p => add a p.2)
            (init.getD i zero) := by
  intro l
  induction l with
  | nil => intro init i hi hall; rfl
  | cons p t ih =>
    intro init i hi hall
    rw [List.foldl_cons, List.filter_cons]
    have hp : p.1 < init.length := hall p (List.mem_cons_self p t)
    have hlen : (init.set p.1 (add (init.getD p.1 zero) p.2)).length
        = init.length := List.length_set init p.1 _
    have hrec := ih (init.set p.1 (add (init.getD p.1 zero) p.2)) i
      (by rwa [hlen])
      (fun q hq => by rw [hlen]; exact hall q (List.mem_cons_of_mem p hq))
    by_cases hpi : p.1 = i
    · subst hpi
      rw [hrec, getD_set_self _ _ _ _ hp]
      simp
    · rw [hrec, getD_set_ne _ _ _ hpi]
      simp [hpi]

theorem foldl_add_eq_sum {β : Type} (f : β → ℝ) :
    ∀ (l : List β) (c : ℝ),
      l.foldl (fun a x => a + f x) c = c + (l.map f).sum := by
  intro l
  induction l with
  | nil => intro c; simp
  | cons x t ih => intro c; simp [List.foldl_cons, ih, add_assoc]

theorem foldl_optAdd_eq_sum {β : Type} (f : β → ℝ) :
    ∀ (l : List β) (c : ℝ),
      l.foldl (fun a x => optAdd a (some (f x))) (some c)
        = some (c + (l.map f).sum) := by
  intro l
  induction l with
  | nil => intro c; simp
  | cons x t ih =>
    intro c
    rw [List.foldl_cons]
    have hstep : optAdd (some c) (some (f x)) = some (c + f x) := rfl
    rw [hstep, ih, add_assoc, List.map_cons, List.sum_cons]

theorem sum_map_div {β : Type} (l : List β) (g : β → ℝ) (c : ℝ) :
    (l.map fun x => g x / c).sum = (l.map g).sum / c := by
  simp only [div_eq_mul_inv, List.sum_map_mul_right]

theorem sum_nonpos_of_all {l : List ℝ} (h : ∀ x ∈ l, x ≤ 0) : l.sum ≤ 0 := by
  induction l with
  | nil => simp
  | cons x t ih =>
    simp only [List.sum_cons]
    have := h x (List.mem_cons_self x t)
    have := ih fun y hy => h y (List.mem_cons_of_mem x hy)
    linarith

theorem exists_pos_of_sum_pos {l : List ℝ} (h : 0 < l.sum) : ∃ x ∈ l, 0 < x := by
  by_contra hc
  push_neg at hc
  have := sum_nonpos_of_all hc
  linarith

theorem le_foldl_max : ∀ (t : List ℝ) (b : ℝ),
    b ≤ t.foldl max b ∧ ∀ x ∈ t, x ≤ t.foldl max b := by
  intro t
  induction t with
  | nil => intro b; simp
  | cons y t ih =>
    intro b
    rw [List.foldl_cons]
    obtain ⟨h1, h2⟩ := ih (max b y)
    refine ⟨le_trans (le_max_left b y) h1, ?_⟩
    intro x hx
    rcases List.mem_cons.mp hx with rfl | hx
    · exact le_trans (le_max_right b x) h1
    · exact h2 x hx

theorem mem_le_npMax {l : List ℝ} {x : ℝ} (hx : x ∈ l) : x ≤ npMax l := by
  match l with
  | [] => exact absurd hx (List.not_mem_nil x)
  | a :: t =>
    rcases List.mem_cons.mp hx with rfl | hx
    · exact (le_foldl_max t x).1
    · exact (le_foldl_max t a).2 x hx

theorem weights_of_table_length (w : Weights) (data : List MonoRow) :
    (weights_of_table w data).length = data.length := by
  cases w <;> simp [weights_of_table]

theorem ufunc_getD {M : Type} (zero : M) (add : M → M → M)
    (tel_data : List M) (n : ℕ) (indices : List ℕ) (i : ℕ) (hi : i < n)
    (hall : ∀ j ∈ indices, j < n) :
    (calculate_ufunc_of_telescope_values zero add tel_data n indices).getD i zero
      = ((indices.zip tel_data).filter fun p => p.1 = i).foldl
          (fun a p => add a p.2) zero := by
  unfold calculate_ufunc_of_telescope_values
  rw [scatterFold_getD zero add _ _ i (by simpa using hi)
    (fun p hp => by
      obtain ⟨a, b⟩ := p
      simpa using hall a (List.of_mem_zip hp).1),
    getD_replicate_self]

theorem zip_map_both {α β γ δ : Type} (f : α → γ) (g : β → δ)
    (l1 : List α) (l2 : List β) :
    (l1.map f).zip (l2.map g) = (l1.zip l2).map (Prod.map f g) := by
  rw [List.zip_map_left, List.zip_map_right, List.map_map]
  rfl

theorem zip_proj_snd {α β γ : Type} :
    ∀ (a : List α) (b : List β) (c : List γ), b.length = c.length →
      a.zip c = (a.zip (b.zip c)).map fun q => (q.1, q.2.2) := by
  intro a
  induction a with
  | nil => intro b c h; rfl
  | cons x a ih =>
    intro b c h
    match b, c with
    | [], [] => rfl
    | [], z :: c => simp at h
    | y :: b, [] => simp at h
    | y :: b, z :: c =>
      simp only [List.zip_cons_cons, List.map_cons]
      rw [ih b c (by simpa using h)]

theorem optAdd_none_right (a : Option ℝ) : optAdd a Option.none = Option.none := by
  cases a <;> rfl

theorem foldl_optAdd_from_none {β : Type} (f : β → Option ℝ) :
    ∀ l : List β, l.foldl (fun a x => optAdd a (f x)) Option.none
      = Option.none := by
  intro l
  induction l with
  | nil => rfl
  | cons x t ih => simpa using ih

theorem foldl_optAdd_all_none {β : Type} (f : β → Option ℝ) :
    ∀ (l : List β) (c : Option ℝ), l ≠ [] → (∀ x ∈ l, f x = Option.none) →
      l.foldl (fun a x => optAdd a (f x)) c = Option.none := by
  intro l
  induction l with
  | nil => intro c h _; exact absurd rfl h
  | cons x t _ =>
    intro c _ hall
    rw [List.foldl_cons, hall x (List.mem_cons_self x t), optAdd_none_right]
    exact foldl_optAdd_from_none f t

theorem usedWeights_of_max_ne (weights : List ℝ) (hM : npMax weights ≠ 0) :
    usedWeights weights = weights.map fun w => some (w / npMax weights) := by
  unfold usedWeights
  exact List.map_congr_left fun w _ => if_neg hM

theorem usedWeights_of_max_eq (weights : List ℝ) (hM : npMax weights = 0) :
    usedWeights weights = weights.map fun _ => Option.none := by
  unfold usedWeights
  exact List.map_congr_left fun w _ => if_pos hM

theorem sow_eq (weights : List ℝ) (n : ℕ) (indices : List ℕ) (i : ℕ)
    (hi : i < n) (hall : ∀ j ∈ indices, j < n) (hM : npMax weights ≠ 0) :
    (calculate_ufunc_of_telescope_values (some (0 : ℝ)) optAdd
        (usedWeights weights) n indices).getD i (some 0)
      = some ((((indices.zip weights).filter fun p => p.1 = i).map
          fun p => p.2).sum / npMax weights) := by
  rw [ufunc_getD _ _ _ _ _ _ hi hall, usedWeights_of_max_ne weights hM,
    List.zip_map_right, List.filter_map, List.foldl_map]
  have h1 : List.filter ((fun p => decide (p.1 = i)) ∘
      Prod.map id fun w => some (w / npMax weights)) (indices.zip weights)
      = (indices.zip weights).filter fun p => p.1 = i := rfl
  rw [h1]
  have h2 : (((indices.zip weights).filter fun p => p.1 = i).foldl
      (fun a q => optAdd a
        ((Prod.map id fun w => some (w / npMax weights)) q).2) (some 0))
      = (((indices.zip weights).filter fun p => p.1 = i).foldl
        (fun a q => optAdd a (some (q.2 / npMax weights))) (some 0)) := rfl
  rw [h2, foldl_optAdd_eq_sum, zero_add]
  congr 1
  have h3 : (((indices.zip weights).filter fun p => p.1 = i).map
      fun q : ℕ × ℝ => q.2 / npMax weights)
      = ((indices.zip weights).filter fun p => p.1 = i).map
        fun q => (fun x : ℕ × ℝ => x.2) q / npMax weights := rfl
  rw [h3, sum_map_div]

theorem sow_eq_zero_max (weights : List ℝ) (n : ℕ) (indices : List ℕ)
    (i : ℕ) (hi : i < n) (hall : ∀ j ∈ indices, j < n)
    (hM : npMax weights = 0) :
    (calculate_ufunc_of_telescope_values (some (0 : ℝ)) optAdd
        (usedWeights weights) n indices).getD i (some 0) = some 0
    ∨ (calculate_ufunc_of_telescope_values (some (0 : ℝ)) optAdd
        (usedWeights weights) n indices).getD i (some 0) = Option.none := by
  rw [ufunc_getD _ _ _ _ _ _ hi hall, usedWeights_of_max_eq weights hM,
    List.zip_map_right, List.filter_map]
  have h1 : List.filter ((fun p => decide (p.1 = i)) ∘
      Prod.map id fun _ : ℝ => (Option.none : Option ℝ)) (indices.zip weights)
      = (indices.zip weights).filter fun p => p.1 = i := rfl
  rw [h1, List.foldl_map]
  rcases hL : (indices.zip weights).filter fun p => p.1 = i with _ | ⟨q, L⟩
  · left
    rw [hL]
    rfl
  · right
    rw [hL]
    refine foldl_optAdd_all_none
      (fun y : ℕ × ℝ => ((Prod.map id fun _ : ℝ => (Option.none : Option ℝ))
        y).2) (q :: L) (some 0) (by simp) ?_
    intro x _
    rfl

theorem sp_eq (vals weights : List ℝ) (n : ℕ) (indices : List ℕ) (i : ℕ)
    (hi : i < n) (hall : ∀ j ∈ indices, j < n) (hM : npMax weights ≠ 0) :
    (calculate_ufunc_of_telescope_values (some (0 : ℝ)) optAdd
        (((vals.map some).zip (usedWeights weights)).map
          fun p => optMul p.1 p.2) n indices).getD i (some 0)
      = some ((((indices.zip (vals.zip weights)).filter fun p => p.1 = i).map
          fun q => q.2.1 * q.2.2).sum / npMax weights) := by
  rw [ufunc_getD _ _ _ _ _ _ hi hall, usedWeights_of_max_ne weights hM,
    zip_map_both, List.map_map, List.zip_map_right, List.filter_map,
    List.foldl_map]
  have h1 : List.filter ((fun p => decide (p.1 = i)) ∘
      Prod.map id ((fun p => optMul p.1 p.2) ∘
        Prod.map some fun w => some (w / npMax weights)))
      (indices.zip (vals.zip weights))
      = (indices.zip (vals.zip weights)).filter fun p => p.1 = i := rfl
  rw [h1]
  have h2 : (((indices.zip (vals.zip weights)).filter fun p => p.1 = i).foldl
      (fun a p => optAdd a
        ((Prod.map id ((fun p => optMul p.1 p.2) ∘
          Prod.map some fun w => some (w / npMax weights)) p).2)) (some 0))
      = (((indices.zip (vals.zip weights)).filter fun p => p.1 = i).foldl
        (fun a q => optAdd a (some (q.2.1 * (q.2.2 / npMax weights))))
        (some 0)) := rfl
  rw [h2, foldl_optAdd_eq_sum, zero_add]
  congr 1
  have h3 : (((indices.zip (vals.zip weights)).filter fun p => p.1 = i).map
      fun q => q.2.1 * (q.2.2 / npMax weights))
      = (((indices.zip (vals.zip weights)).filter fun p => p.1 = i).map
        fun q => q.2.1 * q.2.2 / npMax weights) := by
    apply List.map_congr_left
    intro q hq
    rw [mul_div_assoc]
  rw [h3]
  have h4 : (((indices.zip (vals.zip weights)).filter fun p => p.1 = i).map
      fun q => q.2.1 * q.2.2 / npMax weights)
      = (((indices.zip (vals.zip weights)).filter fun p => p.1 = i).map
        fun q => (fun x : ℕ × ℝ × ℝ => x.2.1 * x.2.2) q / npMax weights) := rfl
  rw [h4, sum_map_div]

theorem weighted_mean_ufunc_closed (vals weights : List ℝ) (n : ℕ)
    (indices : List ℕ) (i : ℕ) (hi : i < n) (hall : ∀ j ∈ indices, j < n)
    (hM : npMax weights ≠ 0) :
    (weighted_mean_ufunc (vals.map some) weights n indices).getD i Option.none
      = (if 0 < (((indices.zip weights).filter fun p => p.1 = i).map
            fun p => p.2).sum / npMax weights
         then some (((((indices.zip (vals.zip weights)).filter
             fun p => p.1 = i).map fun q => q.2.1 * q.2.2).sum / npMax weights)
           / ((((indices.zip weights).filter fun p => p.1 = i).map
             fun p => p.2).sum / npMax weights))
         else Option.none) := by
  unfold weighted_mean_ufunc
  rw [List.getD_eq_getElem?_getD, List.getElem?_map, List.getElem?_range hi,
    Option.map_some', Option.getD_some]
  rw [sow_eq weights n indices i hi hall hM,
    sp_eq vals weights n indices i hi hall hM]
  dsimp only
  by_cases hc : 0 < (((indices.zip weights).filter fun p => p.1 = i).map
      fun p => p.2).sum / npMax weights
  · rw [if_pos hc, if_pos hc, Option.map_some']
  · rw [if_neg hc, if_neg hc]

theorem group_weights_mem {weights : List ℝ} {indices : List ℕ} {i : ℕ} {x : ℝ}
    (hx : x ∈ ((indices.zip weights).filter fun p => p.1 = i).map
      fun p => p.2) : x ∈ weights := by
  obtain ⟨p, hp, rfl⟩ := List.mem_map.mp hx
  obtain ⟨a, b⟩ := p
  exact (List.of_mem_zip (List.mem_of_mem_filter hp)).2

theorem weighted_mean_ufunc_mean (vals weights : List ℝ) (n : ℕ)
    (indices : List ℕ) (i : ℕ) (hi : i < n) (hall : ∀ j ∈ indices, j < n)
    (hnn : ∀ x ∈ weights, 0 ≤ x) :
    (weighted_mean_ufunc (vals.map some) weights n indices).getD i Option.none
      = (if 0 < (((indices.zip weights).filter fun p => p.1 = i).map
            fun p => p.2).sum
         then some ((((indices.zip (vals.zip weights)).filter
             fun p => p.1 = i).map fun q => q.2.1 * q.2.2).sum
           / (((indices.zip weights).filter fun p => p.1 = i).map
             fun p => p.2).sum)
         else Option.none) := by
  by_cases hM : npMax weights = 0
  · have hz : ∀ x ∈ ((indices.zip weights).filter fun p => p.1 = i).map
        fun p => p.2, x = 0 := by
      intro x hx
      have h1 := hnn x (group_weights_mem hx)
      have h2 := mem_le_npMax (group_weights_mem hx)
      rw [hM] at h2
      linarith
    have hS : (((indices.zip weights).filter fun p => p.1 = i).map
        fun p => p.2).sum = 0 := by
      have h1 : (((indices.zip weights).filter fun p => p.1 = i).map
          fun p => p.2).sum ≤ 0 :=
        sum_nonpos_of_all fun x hx => le_of_eq (hz x hx)
      have h2 : 0 ≤ (((indices.zip weights).filter fun p => p.1 = i).map
          fun p => p.2).sum :=
        List.sum_nonneg fun x hx => hnn x (group_weights_mem hx)
      linarith
    rw [if_neg (by rw [hS]; exact lt_irrefl 0)]
    unfold weighted_mean_ufunc
    rw [List.getD_eq_getElem?_getD, List.getElem?_map,
      List.getElem?_range hi, Option.map_some', Option.getD_some]
    rcases sow_eq_zero_max weights n indices i hi hall hM with h | h
    · rw [h]
      dsimp only
      exact if_neg (lt_irrefl 0)
    · rw [h]
  · rw [weighted_mean_ufunc_closed vals weights n indices i hi hall hM]
    by_cases hc : 0 < (((indices.zip weights).filter fun p => p.1 = i).map
        fun p => p.2).sum
    · obtain ⟨x, hx, hxpos⟩ := exists_pos_of_sum_pos hc
      have hMp : 0 < npMax weights :=
        lt_of_lt_of_le hxpos (mem_le_npMax (group_weights_mem hx))
      have hSM : 0 < (((indices.zip weights).filter fun p => p.1 = i).map
          fun p => p.2).sum / npMax weights := div_pos hc hMp
      rw [if_pos hSM, if_pos hc]
      congr 1
      have hMne : npMax weights ≠ 0 := ne_of_gt hMp
      have hSne : (((indices.zip weights).filter fun p => p.1 = i).map
          fun p => p.2).sum ≠ 0 := ne_of_gt hc
      field_simp
    · have hS0 : (((indices.zip weights).filter fun p => p.1 = i).map
          fun p => p.2).sum = 0 :=
        le_antisymm (not_lt.mp hc)
          (List.sum_nonneg fun x hx => hnn x (group_weights_mem hx))
      rw [if_neg hc, if_neg (by rw [hS0, zero_div]; exact lt_irrefl 0)]

theorem sum_map_div_snd : ∀ (l : List (ℕ × ℝ × ℝ)) (c : ℝ),
    (l.map fun p => p.2.2 / c).sum = (l.map fun p => p.2.2).sum / c := by
  intro l c
  induction l with
  | nil => simp
  | cons x t ih => simp [List.map_cons, List.sum_cons, ih, add_div]

theorem sum_map_mul_div : ∀ (l : List (ℕ × ℝ × ℝ)) (c : ℝ),
    (l.map fun p => p.2.1 * (p.2.2 / c)).sum
      = (l.map fun p => p.2.1 * p.2.2).sum / c := by
  intro l c
  induction l with
  | nil => simp
  | cons x t ih =>
    simp only [List.map_cons, List.sum_cons, ih, add_div, mul_div_assoc]

theorem perGroupNormalizedMean_eq_raw (vals weights : List ℝ)
    (indices : List ℕ) (i : ℕ) (hlen : vals.length = weights.length)
    (hnn : ∀ x ∈ weights, 0 ≤ x) :
    perGroupNormalizedMean vals weights indices i
      = (if 0 < (((indices.zip weights).filter fun p => p.1 = i).map
            fun p => p.2).sum
         then some ((((indices.zip (vals.zip weights)).filter
             fun p => p.1 = i).map fun q => q.2.1 * q.2.2).sum
           / (((indices.zip weights).filter fun p => p.1 = i).map
             fun p => p.2).sum)
         else Option.none) := by
  have hzw : indices.zip weights
      = (indices.zip (vals.zip weights)).map fun q => (q.1, q.2.2) :=
    zip_proj_snd indices vals weights hlen
  have hfil : (indices.zip weights).filter (fun p => p.1 = i)
      = ((indices.zip (vals.zip weights)).filter fun p => p.1 = i).map
        fun q => (q.1, q.2.2) := by
    rw [hzw, List.filter_map]
    rfl
  have hw2 : ((indices.zip weights).filter fun p => p.1 = i).map
      (fun p => p.2)
      = ((indices.zip (vals.zip weights)).filter fun p => p.1 = i).map
        fun q => q.2.2 := by
    rw [hfil, List.map_map]
    rfl
  simp only [perGroupNormalizedMean, groupMax]
  rw [hw2, sum_map_div_snd, sum_map_mul_div]
  have hnng : ∀ x ∈ ((indices.zip (vals.zip weights)).filter
      fun p => p.1 = i).map fun q => q.2.2, 0 ≤ x := by
    intro x hx
    rw [← hw2] at hx
    exact hnn x (group_weights_mem hx)
  by_cases hc : 0 < (((indices.zip (vals.zip weights)).filter
      fun p => p.1 = i).map fun q => q.2.2).sum
  · obtain ⟨x, hx, hxpos⟩ := exists_pos_of_sum_pos hc
    have hm : 0 < npMax (((indices.zip (vals.zip weights)).filter
        fun p => p.1 = i).map fun q => q.2.2) :=
      lt_of_lt_of_le hxpos (mem_le_npMax hx)
    have hSm : 0 < (((indices.zip (vals.zip weights)).filter
        fun p => p.1 = i).map fun q => q.2.2).sum / npMax
        (((indices.zip (vals.zip weights)).filter fun p => p.1 = i).map
          fun q => q.2.2) := div_pos hc hm
    rw [if_pos hSm, if_pos hc]
    congr 1
    have hmne := ne_of_gt hm
    have hSne := ne_of_gt hc
    field_simp
  · have hS0 : (((indices.zip (vals.zip weights)).filter
        fun p => p.1 = i).map fun q => q.2.2).sum = 0 :=
      le_antisymm (not_lt.mp hc) (List.sum_nonneg hnng)
    rw [if_neg hc, if_neg (by rw [hS0, zero_div]; exact lt_irrefl 0)]

theorem map_range_getD {β : Type} (l : List β) (d : β) :
    (List.range l.length).map (fun i => l.getD i d) = l := by
  apply List.ext_getElem
  · simp
  · intro j h1 h2
    rw [List.getElem_map, List.getElem_range, List.getD_eq_getElem?_getD,
      List.getElem?_eq_getElem h2, Option.getD_some]

theorem keyLt_of_keyLe_ne {a b : ℤ × ℤ} (h1 : keyLe a b) (h2 : a ≠ b) :
    keyLt a b := by
  unfold keyLe at h1
  unfold keyLt
  rcases h1 with h | ⟨he, hle⟩
  · exact Or.inl h
  · right
    refine ⟨he, lt_of_le_of_ne hle fun hc => h2 (Prod.ext he hc)⟩

theorem array_events_sorted (rows : List MonoRow) :
    List.Pairwise keyLt (array_events rows) := by
  have hs : List.Sorted keyLe ((rows.map tableKey).insertionSort keyLe) :=
    List.sorted_insertionSort keyLe _
  have hd : List.Pairwise keyLe (array_events rows) :=
    List.Pairwise.sublist (List.dedup_sublist _) hs
  have hnd : (array_events rows).Nodup := List.nodup_dedup _
  exact (hd.and hnd).imp fun hab => keyLt_of_keyLe_ne hab.1 hab.2

theorem predict_energy_keys (w : Weights) (log_target : Bool)
    (rows : List MonoRow) :
    (predict_table_energy w log_target rows).map
      (fun r => (r.obs_id, r.event_id)) = array_events rows := by
  unfold predict_table_energy
  rw [List.map_map]
  refine Eq.trans (List.map_congr_left fun i hi => ?_)
    (map_range_getD (array_events rows) (0, 0))
  rfl

theorem predict_class_keys (w : Weights) (rows : List MonoRow) :
    (predict_table_classification w rows).map
      (fun r => (r.obs_id, r.event_id)) = array_events rows := by
  unfold predict_table_classification
  rw [List.map_map]
  refine Eq.trans (List.map_congr_left fun i hi => ?_)
    (map_range_getD (array_events rows) (0, 0))
  rfl

theorem predict_geom_keys (w : Weights) (rows : List MonoRow) :
    (predict_table_geometry w rows).map
      (fun r => (r.obs_id, r.event_id)) = array_events rows := by
  unfold predict_table_geometry
  rw [List.map_map]
  refine Eq.trans (List.map_congr_left fun i hi => ?_)
    (map_range_getD (array_events rows) (0, 0))
  rfl

theorem groupRawWeightSum_nil (weights : List ℝ) (i : ℕ) :
    groupRawWeightSum weights [] i = 0 := rfl

theorem collect_classification_lengths (w : Weights)
    (dl1 : List (ℤ × Option ImageParameters)) :
    ∀ l : List (ℤ × TelReconstructed),
      (collect_classification w dl1 l).2.1.length
        = (collect_classification w dl1 l).2.2.length := by
  intro l
  induction l with
  | nil => rfl
  | cons p t ih =>
    obtain ⟨tid, r⟩ := p
    by_cases hval : r.classification.is_valid
    · simp only [collect_classification, hval, if_true, List.length_cons, ih]
    · simpa only [collect_classification, hval, Bool.false_eq_true,
        if_false] using ih

theorem collect_disp_lengths (w : Weights)
    (dl1 : List (ℤ × Option ImageParameters)) :
    ∀ l : List (ℤ × TelReconstructed),
      (collect_disp w dl1 l).2.1.length = (collect_disp w dl1 l).2.2.length := by
  intro l
  induction l with
  | nil => rfl
  | cons p t ih =>
    obtain ⟨tid, r⟩ := p
    by_cases hval : r.geometry.is_valid
    · simp only [collect_disp, hval, if_true, List.length_cons, ih]
    · simpa only [collect_disp, hval, Bool.false_eq_true, if_false] using ih

theorem dl1Parameters_nil (tid : ℤ) : dl1Parameters [] tid = Option.none := rfl

theorem collect_classification_weights_one (w : Weights) :
    ∀ l : List (ℤ × TelReconstructed),
      ∀ x ∈ (collect_classification w [] l).2.2, x = 1 := by
  intro l
  induction l with
  | nil => intro x hx; simp [collect_classification] at hx
  | cons p t ih =>
    obtain ⟨tid, r⟩ := p
    intro x hx
    by_cases hval : r.classification.is_valid
    · simp only [collect_classification, hval, if_true,
        dl1Parameters_nil] at hx
      rcases List.mem_cons.mp hx with rfl | hx
      · rfl
      · exact ih x hx
    · simp only [collect_classification, hval, Bool.false_eq_true,
        if_false] at hx
      exact ih x hx

theorem collect_disp_weights_one (w : Weights) :
    ∀ l : List (ℤ × TelReconstructed),
      ∀ x ∈ (collect_disp w [] l).2.2, x = 1 := by
  intro l
  induction l with
  | nil => intro x hx; simp [collect_disp] at hx
  | cons p t ih =>
    obtain ⟨tid, r⟩ := p
    intro x hx
    by_cases hval : r.geometry.is_valid
    · simp only [collect_disp, hval, if_true, dl1Parameters_nil] at hx
      rcases List.mem_cons.mp hx with rfl | hx
      · rfl
      · exact ih x hx
    · simp only [collect_disp, hval, Bool.false_eq_true, if_false] at hx
      exact ih x hx

theorem sum_all_one {l : List ℝ} (h : ∀ x ∈ l, x = 1) :
    l.sum = l.length := by
  induction l with
  | nil => simp
  | cons x t ih =>
    rw [List.sum_cons, h x (List.mem_cons_self x t),
      ih fun y hy => h y (List.mem_cons_of_mem x hy)]
    simp
    ring

theorem collect_energy_all_invalid (w : Weights)
    (dl1 : List (ℤ × Option ImageParameters)) :
    ∀ l : List (ℤ × TelReconstructed),
      (∀ q ∈ l, q.2.energy.is_valid = false) →
      collect_energy w dl1 l = .ok ([], [], []) := by
  intro l
  induction l with
  | nil => intro h; rfl
  | cons p t ih =>
    obtain ⟨tid, r⟩ := p
    intro h
    have hval : r.energy.is_valid = false := h (tid, r) (List.mem_cons_self _ t)
    simp only [collect_energy, hval, Bool.false_eq_true, if_false]
    exact ih fun q hq => h q (List.mem_cons_of_mem _ hq)

theorem collect_energy_single (w : Weights)
    (dl1 : List (ℤ × Option ImageParameters)) (t : ℤ)
    (r : TelReconstructed) (p : ImageParameters)
    (hl : List.lookup t dl1 = some (some p)) :
    ∀ l : List (ℤ × TelReconstructed),
      l.filter (fun q => q.2.energy.is_valid) = [(t, r)] →
      collect_energy w dl1 l
        = .ok ([t], [r.energy.energy], [weight_of_parameters w p]) := by
  intro l
  induction l with
  | nil => intro h; simp at h
  | cons q rest ih =>
    obtain ⟨tid, s⟩ := q
    intro h
    by_cases hval : s.energy.is_valid
    · rw [List.filter_cons_of_pos (by simpa using hval)] at h
      have h1 : (tid, s) = (t, r) := (List.cons.injEq _ _ _ _).mp h |>.1
      have h2 : rest.filter (fun q => q.2.energy.is_valid) = [] :=
        (List.cons.injEq _ _ _ _).mp h |>.2
      obtain ⟨rfl, rfl⟩ := Prod.mk.injEq .. |>.mp h1
      simp only [collect_energy, hval, if_true, hl]
      rw [collect_energy_all_invalid w dl1 rest
        (by
          intro q hq
          have := List.filter_eq_nil_iff.mp h2 q hq
          simpa using this)]
      rfl
    · rw [List.filter_cons_of_neg (by simpa using hval)] at h
      simp only [collect_energy, hval, Bool.false_eq_true, if_false]
      exact ih h

theorem npAverage_ok_of_sum_ne {vals ws : List ℝ} (h : ws.sum ≠ 0) :
    npAverage vals ws
      = Except.ok (((vals.zip ws).map fun p => p.1 * p.2).sum / ws.sum) := by
  unfold npAverage
  rw [if_neg h]

theorem combine_classification_total (w : Weights) (ev : ArrayEvent)
    (hone : ∀ x ∈ (collect_classification w ev.dl1tel ev.dl2tel).2.2, x = 1) :
    ∃ r, combine_classification w ev = Except.ok r := by
  unfold combine_classification
  by_cases hl : 0 < (collect_classification w ev.dl1tel ev.dl2tel).2.1.length
  · rw [if_pos hl]
    have hne : (collect_classification w ev.dl1tel ev.dl2tel).2.2.sum ≠ 0 := by
      rw [sum_all_one hone,
        ← collect_classification_lengths w ev.dl1tel ev.dl2tel]
      have hc : (0 : ℝ) < ((collect_classification w ev.dl1tel
          ev.dl2tel).2.1.length : ℝ) := by exact_mod_cast hl
      exact ne_of_gt hc
    simp only [npAverage_ok_of_sum_ne hne]
    exact ⟨_, rfl⟩
  · rw [if_neg hl]
    exact ⟨_, rfl⟩

theorem combine_disp_total (w : Weights) (ev : ArrayEvent)
    (hone : ∀ x ∈ (collect_disp w ev.dl1tel ev.dl2tel).2.2, x = 1) :
    ∃ r, combine_disp w ev = Except.ok r := by
  unfold combine_disp
  by_cases hl : 0 < (collect_disp w ev.dl1tel ev.dl2tel).2.1.length
  · rw [if_pos hl]
    have hne : (collect_disp w ev.dl1tel ev.dl2tel).2.2.sum ≠ 0 := by
      rw [sum_all_one hone, ← collect_disp_lengths w ev.dl1tel ev.dl2tel]
      have hc : (0 : ℝ) < ((collect_disp w ev.dl1tel
          ev.dl2tel).2.1.length : ℝ) := by exact_mod_cast hl
      exact ne_of_gt hc
    simp only [npAverage_ok_of_sum_ne hne]
    exact ⟨_, rfl⟩
  · rw [if_neg hl]
    exact ⟨_, rfl⟩

/-- Claim C9: for every strategy, the weight computation raises `TypeError`
exactly when the input is neither a structured per-event record (container)
nor a tabular row batch; on the two legal shapes no type error is raised,
and the error is the result itself, produced before any weight. -/
theorem claim_C9 (w : Weights) (d : Dl1Input) :
    calculate_weights w d = WeightsResult.typeError ↔ d = Dl1Input.other := by
  cases d with
  | container x => cases w <;> simp [calculate_weights]
  | table x => cases w <;> simp [calculate_weights]
  | other => simp [calculate_weights]

/-- Claim C5: the rows of every table returned by table-mode combine are in
strictly ascending lexicographic order of (obs_id, event_id), whatever the
input order was. -/
theorem claim_C5 (w : Weights) (log_target : Bool) (rows : List MonoRow) :
    List.Pairwise keyLt ((predict_table_energy w log_target rows).map
        fun r => (r.obs_id, r.event_id))
    ∧ List.Pairwise keyLt ((predict_table_classification w rows).map
        fun r => (r.obs_id, r.event_id))
    ∧ List.Pairwise keyLt ((predict_table_geometry w rows).map
        fun r => (r.obs_id, r.event_id)) := by
  rw [predict_energy_keys w log_target rows, predict_class_keys w rows,
    predict_geom_keys w rows]
  exact ⟨array_events_sorted rows, array_events_sorted rows,
    array_events_sorted rows⟩

/-- Claim C7, counterexample: the weights actually used by the weighted sum
(`weights / weights.max()`, line 44, factored as `usedWeights`) divide by
the global maximum over all valid rows of the call, not by each group's own
maximum: for raw weights `[1, 2]` in two distinct groups `[0, 1]`, the code
uses `[1/2, 1]` whereas per-group max normalisation yields `[1, 1]`. -/
theorem claim_C7_counterexample :
    usedWeights [1, 2] ≠ perGroupMaxWeights [1, 2] [0, 1] := by
  intro h
  have h0 := congrArg (fun l => l.getD 0 (0 : ℝ)) h
  simp only [usedWeights, perGroupMaxWeights, groupMax, npMax,
    List.zip_cons_cons, List.zip_nil_right, List.map_cons, List.map_nil,
    List.filter_cons, List.filter_nil, List.foldl_cons, List.foldl_nil,
    List.getD_cons_zero, decide_True, decide_False] at h0
  norm_num at h0

/-- Claim C7 (amended): the weighted-sum weights are normalised by the
global maximum of all weights of the call, not per group; nevertheless, for
non-negative weights the combined mean of every group equals the weighted
mean computed with per-group-max-normalised weights, as the spec states. -/
theorem claim_C7 (vals weights : List ℝ) (n : ℕ) (indices : List ℕ) (i : ℕ)
    (hi : i < n) (hall : ∀ j ∈ indices, j < n)
    (hlen : vals.length = weights.length)
    (hnn : ∀ x ∈ weights, 0 ≤ x) :
    (weighted_mean_ufunc (vals.map some) weights n indices).getD i Option.none
      = perGroupNormalizedMean vals weights indices i := by
  rw [weighted_mean_ufunc_mean vals weights n indices i hi hall hnn,
    perGroupNormalizedMean_eq_raw vals weights indices i hlen hnn]

theorem claim_C7_witness :
    (0 : ℕ) < 2
    ∧ (weighted_mean_ufunc ([(10 : ℝ), 20].map some) [1, 2] 2
        [0, 1]).getD 0 Option.none
      = perGroupNormalizedMean [10, 20] [1, 2] [0, 1] 0 :=
  ⟨by norm_num,
    claim_C7 [10, 20] [1, 2] 2 [0, 1] 0 (by norm_num) (by decide)
      (by norm_num)
      (by
        intro x hx
        rcases List.mem_cons.mp hx with rfl | hx
        · norm_num
        · rcases List.mem_cons.mp hx with rfl | hx
          · norm_num
          · simp at hx)⟩

/-- Claim C2, counterexample: a telescope with a valid energy prediction but
no DL1 entry makes the event-wise energy combination raise `ValueError`
(line 140), rather than falling back to weight 1. -/
theorem claim_C2_counterexample :
    combine_energy Weights.none false
      ⟨[], [(1, ⟨⟨10, true⟩, ⟨0, false⟩, ⟨0, 0, false⟩⟩)]⟩
      = Except.error PyError.valueError := rfl

theorem collect_classification_weights_eq (w : Weights)
    (dl1 : List (ℤ × Option ImageParameters)) :
    ∀ l : List (ℤ × TelReconstructed),
      (collect_classification w dl1 l).2.2
        = (l.filter fun q => q.2.classification.is_valid).map
            fun q => match dl1Parameters dl1 q.1 with
              | some p => weight_of_parameters w p
              | Option.none => 1 := by
  intro l
  induction l with
  | nil => rfl
  | cons p t ih =>
    obtain ⟨tid, r⟩ := p
    by_cases hval : r.classification.is_valid
    · rw [List.filter_cons_of_pos (by simpa using hval), List.map_cons]
      simp only [collect_classification, hval, if_true]
      rw [ih]
    · rw [List.filter_cons_of_neg (by simpa using hval)]
      simpa only [collect_classification, hval, Bool.false_eq_true,
        if_false] using ih

theorem collect_disp_weights_eq (w : Weights)
    (dl1 : List (ℤ × Option ImageParameters)) :
    ∀ l : List (ℤ × TelReconstructed),
      (collect_disp w dl1 l).2.2
        = (l.filter fun q => q.2.geometry.is_valid).map
            fun q => match dl1Parameters dl1 q.1 with
              | some p => weight_of_parameters w p
              | Option.none => 1 := by
  intro l
  induction l with
  | nil => rfl
  | cons p t ih =>
    obtain ⟨tid, r⟩ := p
    by_cases hval : r.geometry.is_valid
    · rw [List.filter_cons_of_pos (by simpa using hval), List.map_cons]
      simp only [collect_disp, hval, if_true]
      rw [ih]
    · rw [List.filter_cons_of_neg (by simpa using hval)]
      simpa only [collect_disp, hval, Bool.false_eq_true,
        if_false] using ih

theorem collect_energy_missing_dl1 (w : Weights)
    (dl1 : List (ℤ × Option ImageParameters)) :
    ∀ l : List (ℤ × TelReconstructed),
      (∃ q ∈ l, q.2.energy.is_valid = true
        ∧ dl1Parameters dl1 q.1 = Option.none) →
      collect_energy w dl1 l = .error .valueError
        ∨ collect_energy w dl1 l = .error .typeError := by
  intro l
  induction l with
  | nil =>
    rintro ⟨q, hq, -⟩
    simp at hq
  | cons p t ih =>
    obtain ⟨tid, r⟩ := p
    rintro ⟨q, hq, hvalid, hnone⟩
    by_cases hval : r.energy.is_valid
    · rcases hlk : List.lookup tid dl1 with _ | op
      · left
        simp only [collect_energy, hval, if_true, hlk]
      · rcases op with _ | pp
        · right
          simp only [collect_energy, hval, if_true, hlk]
        · have hqt : q ∈ t := by
            rcases List.mem_cons.mp hq with rfl | h
            · exfalso
              have h0 : dl1Parameters dl1 tid = Option.none := hnone
              rw [dl1Parameters, hlk] at h0
              simp at h0
            · exact h
          have h2 := ih ⟨q, hqt, hvalid, hnone⟩
          simp only [collect_energy, hval, if_true, hlk]
          rcases h2 with h | h
          · left
            rw [h]
            rfl
          · right
            rw [h]
            rfl
    · have hqt : q ∈ t := by
        rcases List.mem_cons.mp hq with rfl | h
        · exact absurd hvalid (by simpa using hval)
        · exact h
      have h2 := ih ⟨q, hqt, hvalid, hnone⟩
      simpa only [collect_energy, hval, Bool.false_eq_true, if_false] using h2

theorem combine_energy_error_of_missing (w : Weights) (lt : Bool)
    (ev : ArrayEvent)
    (h : ∃ q ∈ ev.dl2tel, q.2.energy.is_valid = true
      ∧ dl1Parameters ev.dl1tel q.1 = Option.none) :
    combine_energy w lt ev = Except.error PyError.valueError
      ∨ combine_energy w lt ev = Except.error PyError.typeError := by
  rcases collect_energy_missing_dl1 w ev.dl1tel ev.dl2tel h with h1 | h1
  · left
    unfold combine_energy
    rw [h1]
  · right
    unfold combine_energy
    rw [h1]

theorem npAverage_error {v ws : List ℝ} {e : PyError}
    (h : npAverage v ws = .error e) :
    e = PyError.zeroDivisionError ∧ ws.sum = 0 := by
  unfold npAverage at h
  dsimp only at h
  by_cases hs : ws.sum = 0
  · rw [if_pos hs, Except.error.injEq] at h
    exact ⟨h.symm, hs⟩
  · rw [if_neg hs] at h
    simp at h

theorem combine_classification_error (w : Weights) (ev : ArrayEvent)
    (e : PyError) (h : combine_classification w ev = Except.error e) :
    e = PyError.zeroDivisionError
    ∧ (collect_classification w ev.dl1tel ev.dl2tel).2.2.sum = 0 := by
  unfold combine_classification at h
  dsimp only at h
  split at h
  · split at h
    · rename_i e1 he1
      rw [Except.error.injEq] at h
      obtain ⟨he, hs⟩ := npAverage_error he1
      exact ⟨h.symm.trans he, hs⟩
    · simp at h
  · simp at h

theorem combine_disp_error (w : Weights) (ev : ArrayEvent)
    (e : PyError) (h : combine_disp w ev = Except.error e) :
    e = PyError.zeroDivisionError
    ∧ (collect_disp w ev.dl1tel ev.dl2tel).2.2.sum = 0 := by
  unfold combine_disp at h
  dsimp only at h
  split at h
  · split at h
    · rename_i e1 he1
      rw [Except.error.injEq] at h
      obtain ⟨he, hs⟩ := npAverage_error he1
      exact ⟨h.symm.trans he, hs⟩
    · split at h
      · rename_i e1 he1
        rw [Except.error.injEq] at h
        obtain ⟨he, hs⟩ := npAverage_error he1
        exact ⟨h.symm.trans he, hs⟩
      · split at h
        · rename_i e1 he1
          rw [Except.error.injEq] at h
          obtain ⟨he, hs⟩ := npAverage_error he1
          exact ⟨h.symm.trans he, hs⟩
        · simp at h
  · simp at h

/-- Claim C2 (amended): in the event-wise combinations for classification
and geometry every valid telescope whose DL1 image parameters are absent
gets uniform weight 1 — the collected weight list is pointwise the
parameter weight when parameters exist and `1` otherwise — and the only
error those two combinations can raise is a `ZeroDivisionError` from a
zero weight sum, never one caused by the missing parameters.  For energy
the claimed fallback does not exist: whenever any telescope with a valid
energy prediction has no DL1 parameters, `_combine_energy` raises
`ValueError` (telescope id missing from `event.dl1.tel`, line 140) or
`TypeError` (`parameters` unset, line 126) instead of completing. -/
theorem claim_C2 :
    (∀ (w : Weights) (dl1 : List (ℤ × Option ImageParameters))
        (dl2 : List (ℤ × TelReconstructed)),
      (collect_classification w dl1 dl2).2.2
        = (dl2.filter fun q => q.2.classification.is_valid).map
            fun q => match dl1Parameters dl1 q.1 with
              | some p => weight_of_parameters w p
              | Option.none => 1)
    ∧ (∀ (w : Weights) (dl1 : List (ℤ × Option ImageParameters))
        (dl2 : List (ℤ × TelReconstructed)),
      (collect_disp w dl1 dl2).2.2
        = (dl2.filter fun q => q.2.geometry.is_valid).map
            fun q => match dl1Parameters dl1 q.1 with
              | some p => weight_of_parameters w p
              | Option.none => 1)
    ∧ (∀ (w : Weights) (ev : ArrayEvent) (e : PyError),
        combine_classification w ev = Except.error e →
          e = PyError.zeroDivisionError
          ∧ (collect_classification w ev.dl1tel ev.dl2tel).2.2.sum = 0)
    ∧ (∀ (w : Weights) (ev : ArrayEvent) (e : PyError),
        combine_disp w ev = Except.error e →
          e = PyError.zeroDivisionError
          ∧ (collect_disp w ev.dl1tel ev.dl2tel).2.2.sum = 0)
    ∧ (∀ (w : Weights) (lt : Bool) (ev : ArrayEvent),
        (∃ q ∈ ev.dl2tel, q.2.energy.is_valid = true
          ∧ dl1Parameters ev.dl1tel q.1 = Option.none) →
        combine_energy w lt ev = Except.error PyError.valueError
          ∨ combine_energy w lt ev = Except.error PyError.typeError) :=
  ⟨collect_classification_weights_eq, collect_disp_weights_eq,
    combine_classification_error, combine_disp_error,
    combine_energy_error_of_missing⟩

/-- Mixed array event: telescope 1 has DL1 hillas parameters, telescope 2
has valid predictions but no DL1 entry at all. -/
noncomputable def evC2m : ArrayEvent :=
  ⟨[(1, some ⟨⟨3, 1, 2⟩⟩)],
    [(1, ⟨⟨5, true⟩, ⟨0.2, true⟩, ⟨10, 20, true⟩⟩),
     (2, ⟨⟨6, true⟩, ⟨0.8, true⟩, ⟨30, 40, true⟩⟩)]⟩

theorem claim_C2_witness :
    ((collect_classification Weights.intensity evC2m.dl1tel
        evC2m.dl2tel).2.2
      = (evC2m.dl2tel.filter fun q => q.2.classification.is_valid).map
          fun q => match dl1Parameters evC2m.dl1tel q.1 with
            | some p => weight_of_parameters Weights.intensity p
            | Option.none => 1)
    ∧ (((2 : ℤ), (⟨⟨6, true⟩, ⟨0.8, true⟩, ⟨30, 40, true⟩⟩ :
          TelReconstructed)) ∈ evC2m.dl2tel
        ∧ dl1Parameters evC2m.dl1tel 2 = Option.none)
    ∧ (combine_energy Weights.intensity false evC2m
          = Except.error PyError.valueError
        ∨ combine_energy Weights.intensity false evC2m
          = Except.error PyError.typeError) := by
  have hmem : ((2 : ℤ), (⟨⟨6, true⟩, ⟨0.8, true⟩, ⟨30, 40, true⟩⟩ :
      TelReconstructed)) ∈ evC2m.dl2tel :=
    List.mem_cons_of_mem _ (List.mem_cons_self _ _)
  have hnone : dl1Parameters evC2m.dl1tel 2 = Option.none := rfl
  exact ⟨claim_C2.1 Weights.intensity evC2m.dl1tel evC2m.dl2tel,
    ⟨hmem, hnone⟩,
    claim_C2.2.2.2.2 Weights.intensity false evC2m ⟨_, hmem, rfl, hnone⟩⟩

/-- One-telescope array event with a valid geometry prediction: the failing
input for the event-wise geometry path. -/
noncomputable def evC1 : ArrayEvent :=
  ⟨[], [(1, ⟨⟨0, false⟩, ⟨0, false⟩, ⟨60, 15, true⟩⟩)]⟩

/-- Claim C1 (code bug): `__call__` on a combiner configured for geometry
raises `AttributeError` instead of attaching the spherical-mean stereo
geometry — line 253 reads `self.combine_property`, an attribute that does
not exist (the configured trait is `property`, line 67).  `_combine_disp`
itself, the aggregation the claim and the repository's own test
(`test_mean_prediction_single_event`) expect to run, succeeds on the same
event with a valid stereo geometry. -/
theorem claim_C1 :
    call CombineProperty.geometry Weights.none false evC1
        = Except.error PyError.attributeError
    ∧ (combine_disp Weights.none evC1).toOption.map
        (fun r => (r.is_valid, r.telescopes)) = some (true, [1]) := by
  refine ⟨rfl, ?_⟩
  have hacc : collect_disp Weights.none evC1.dl1tel evC1.dl2tel
      = ([1], [((60 : ℝ), (15 : ℝ))], [1]) := rfl
  have hsum : ([(1 : ℝ)]).sum ≠ 0 := by norm_num
  simp only [combine_disp, hacc, List.length_cons, List.length_nil,
    Nat.lt_add_one, if_pos, List.map_cons, List.map_nil,
    npAverage_ok_of_sum_ne hsum, Except.toOption, Option.map_some']

theorem optSum_map_some : ∀ l : List ℝ, optSum (l.map some) = some l.sum := by
  intro l
  induction l with
  | nil => rfl
  | cons x t ih =>
    simp only [List.map_cons, optSum, List.foldr_cons] at ih ⊢
    rw [ih]
    simp only [optAdd, List.sum_cons]

theorem npAverageNaN_map_some (values ws : List ℝ) (h : ws.sum ≠ 0) :
    npAverageNaN values (ws.map some)
      = Except.ok (some (((values.zip ws).map
          fun p => p.1 * p.2).sum / ws.sum)) := by
  unfold npAverageNaN
  rw [optSum_map_some]
  dsimp only
  rw [if_neg h]
  have hzip : (values.zip (ws.map some)).map (fun p => p.1 * p.2.getD 0)
      = (values.zip ws).map fun p => p.1 * p.2 := by
    rw [List.zip_map_right, List.map_map]
    rfl
  rw [hzip]

theorem npCovNaN_map_some_ok (values ws : List ℝ) (h : ws.sum ≠ 0) :
    ∃ c, npCovNaN values (ws.map some) = Except.ok c := by
  unfold npCovNaN
  rw [optSum_map_some]
  dsimp only
  rw [if_neg h]
  split_ifs
  · exact ⟨_, rfl⟩
  · exact ⟨_, rfl⟩

theorem npCovNaN_single (E x : ℝ) (hx : x ≠ 0) :
    npCovNaN [E] ([x].map some) = Except.ok Option.none := by
  unfold npCovNaN
  rw [optSum_map_some]
  dsimp only
  rw [if_neg (by simpa using hx)]
  rw [if_pos ?_]
  simp only [List.map_cons, List.map_nil, List.sum_cons, List.sum_nil,
    Option.getD_some, add_zero]
  have hxx : x * x / x = x := by
    field_simp
  rw [hxx]
  simp

/-- Three-telescope array event with valid energies 1, 10 and 4 TeV and DL1
parameters present, comparing log-domain and linear-domain combination. -/
noncomputable def evC8 : ArrayEvent :=
  ⟨[(1, some ⟨⟨5, 1, 1⟩⟩), (2, some ⟨⟨5, 1, 1⟩⟩), (3, some ⟨⟨5, 1, 1⟩⟩)],
   [(1, ⟨⟨1, true⟩, ⟨0, false⟩, ⟨0, 0, false⟩⟩),
    (2, ⟨⟨10, true⟩, ⟨0, false⟩, ⟨0, 0, false⟩⟩),
    (3, ⟨⟨4, true⟩, ⟨0, false⟩, ⟨0, 0, false⟩⟩)]⟩

/-- The combined stereo energy of an event-wise energy combination
(`none` on a raised exception); projection used to state value claims. -/
noncomputable def stereoEnergyValue : Except PyError StereoEnergy → Option ℝ
  | .ok r => r.energy
  | .error _ => Option.none

/-- Claim C8: with `log_target` set, energy combination takes the weighted
mean of `ln(value)` and exponentiates back; for uniform weights on
`[1, 10, 4]` TeV the log-domain result `exp((ln 1 + ln 10 + ln 4)/3)` (the
geometric mean, cube root of 40) differs from the linear-domain mean 5. -/
theorem claim_C8 :
    stereoEnergyValue (combine_energy Weights.none false evC8) = some 5
    ∧ stereoEnergyValue (combine_energy Weights.none true evC8)
        = some (Real.exp ((Real.log 1 + Real.log 10 + Real.log 4) / 3))
    ∧ stereoEnergyValue (combine_energy Weights.none true evC8)
        ≠ stereoEnergyValue (combine_energy Weights.none false evC8) := by
  have hcol : collect_energy Weights.none evC8.dl1tel evC8.dl2tel
      = .ok ([1, 2, 3], [1, 10, 4], [1, 1, 1]) := rfl
  have hm : npMax [(1 : ℝ), 1, 1] = 1 := by
    simp [npMax, List.foldl_cons, List.foldl_nil]
  have hused : usedWeights [(1 : ℝ), 1, 1] = [(1 : ℝ), 1, 1].map some := by
    unfold usedWeights
    simp only [List.map_cons, List.map_nil, hm]
    norm_num
  have hsum : ([(1 : ℝ), 1, 1]).sum ≠ 0 := by norm_num
  have havg_lin : npAverageNaN [(1 : ℝ), 10, 4] ([(1 : ℝ), 1, 1].map some)
      = .ok (some 5) := by
    rw [npAverageNaN_map_some _ _ hsum]
    norm_num
  have hcov_lin := npCovNaN_map_some_ok [(1 : ℝ), 10, 4] [(1 : ℝ), 1, 1] hsum
  have hmaplog : ([(1 : ℝ), 10, 4]).map Real.log
      = [Real.log 1, Real.log 10, Real.log 4] := by
    simp only [List.map_cons, List.map_nil]
  have havg_log : npAverageNaN [Real.log 1, Real.log 10, Real.log 4]
      ([(1 : ℝ), 1, 1].map some)
      = .ok (some ((Real.log 1 + Real.log 10 + Real.log 4) / 3)) := by
    rw [npAverageNaN_map_some _ _ hsum]
    have hA : ((([Real.log 1, Real.log 10, Real.log 4].zip
        [(1 : ℝ), 1, 1]).map fun p => p.1 * p.2).sum / ([(1 : ℝ), 1, 1]).sum)
        = (Real.log 1 + Real.log 10 + Real.log 4) / 3 := by
      simp only [List.zip_cons_cons, List.zip_nil_right, List.map_cons,
        List.map_nil, List.sum_cons, List.sum_nil, mul_one, add_zero]
      norm_num
    rw [hA]
  have hcov_log := npCovNaN_map_some_ok [Real.log 1, Real.log 10, Real.log 4]
    [(1 : ℝ), 1, 1] hsum
  obtain ⟨cl, hcl⟩ := hcov_lin
  obtain ⟨cg, hcg⟩ := hcov_log
  have hlin : stereoEnergyValue (combine_energy Weights.none false evC8)
      = some 5 := by
    simp only [combine_energy, hcol, List.length_cons, List.length_nil,
      Nat.zero_lt_succ, if_pos, Bool.false_eq_true, if_false, hused,
      havg_lin, hcl, stereoEnergyValue]
  have hlog : stereoEnergyValue (combine_energy Weights.none true evC8)
      = some (Real.exp ((Real.log 1 + Real.log 10 + Real.log 4) / 3)) := by
    simp only [combine_energy, hcol, List.length_cons, List.length_nil,
      Nat.zero_lt_succ, if_pos, if_true, hused, hmaplog, havg_log, hcg,
      stereoEnergyValue, Option.map_some']
  refine ⟨hlin, hlog, ?_⟩
  rw [hlin, hlog]
  intro heq
  have hexp : Real.exp ((Real.log 1 + Real.log 10 + Real.log 4) / 3) = 5 :=
    Option.some.injEq .. |>.mp heq
  have h40 : Real.exp ((Real.log 1 + Real.log 10 + Real.log 4) / 3) ^ (3 : ℕ)
      = 40 := by
    rw [← Real.exp_nat_mul]
    have h3 : ((3 : ℕ) : ℝ) * ((Real.log 1 + Real.log 10 + Real.log 4) / 3)
        = Real.log 1 + Real.log 10 + Real.log 4 := by
      push_cast
      ring
    rw [h3, Real.log_one, zero_add,
      ← Real.log_mul (by norm_num) (by norm_num), Real.exp_log (by norm_num)]
    norm_num
  rw [hexp] at h40
  norm_num at h40

/-- Claim C10: event-wise energy combination with exactly one valid
telescope prediction (whose DL1 parameters are present and give a nonzero
weight) yields that telescope's energy with `is_valid = true`, while the
reported uncertainty is NaN: `np.cov` of a single sample has zero degrees
of freedom, so a valid stereo energy carries a non-finite uncertainty. -/
theorem claim_C10 (w : Weights) (ev : ArrayEvent) (t : ℤ)
    (r : TelReconstructed) (p : ImageParameters)
    (hf : ev.dl2tel.filter (fun q => q.2.energy.is_valid) = [(t, r)])
    (hl : List.lookup t ev.dl1tel = some (some p))
    (hw : weight_of_parameters w p ≠ 0) :
    combine_energy w false ev
      = Except.ok ⟨some r.energy.energy, Option.none, [t], true⟩ := by
  have hcol := collect_energy_single w ev.dl1tel t r p hl ev.dl2tel hf
  have hmax : npMax [weight_of_parameters w p] = weight_of_parameters w p :=
    rfl
  have hused : usedWeights [weight_of_parameters w p]
      = [(1 : ℝ)].map some := by
    unfold usedWeights
    simp only [List.map_cons, List.map_nil, hmax, if_neg hw, div_self hw]
  have hsum : ([(1 : ℝ)]).sum ≠ 0 := by norm_num
  have havg : npAverageNaN [r.energy.energy] ([(1 : ℝ)].map some)
      = .ok (some r.energy.energy) := by
    rw [npAverageNaN_map_some _ _ hsum]
    simp only [List.zip_cons_cons, List.zip_nil_right, List.map_cons,
      List.map_nil, List.sum_cons, List.sum_nil]
    norm_num
  have hcov : npCovNaN [r.energy.energy] ([(1 : ℝ)].map some)
      = .ok Option.none := npCovNaN_single r.energy.energy 1 one_ne_zero
  simp only [combine_energy, hcol, List.length_cons, List.length_nil,
    Nat.zero_lt_succ, if_pos, Bool.false_eq_true, if_false, hused, havg,
    hcov, Option.map_none']

theorem isSome_false_eq_none {β : Type} {o : Option β}
    (h : o.isSome = false) : o = Option.none := by
  cases o with
  | none => rfl
  | some v => simp at h

theorem npAverageNaN_map_some_isSome {v ws : List ℝ} {c : Option ℝ}
    (h : npAverageNaN v (ws.map some) = Except.ok c) : ∃ x, c = some x := by
  unfold npAverageNaN at h
  rw [optSum_map_some] at h
  dsimp only at h
  split_ifs at h
  rw [Except.ok.injEq] at h
  exact ⟨_, h.symm⟩

/-- One-telescope array event whose single valid energy prediction carries
zero Hillas intensity, so that intensity weighting produces the all-zero
weight vector whose normalisation is non-finite. -/
noncomputable def evC6 : ArrayEvent :=
  ⟨[(1, some ⟨⟨0, 1, 1⟩⟩)],
   [(1, ⟨⟨3, true⟩, ⟨0, false⟩, ⟨0, 0, false⟩⟩)]⟩

/-- Claim C6, counterexample: the code violates the claimed invariant on
the event-wise energy path.  With intensity weighting and a single valid
telescope of zero intensity, `weights / weights.max()` is `0/0 = NaN`;
`np.average` accepts the NaN weights (`NaN == 0` is false, so nothing is
raised) and returns NaN, and line 160 still sets `valid = True`, so a
stereo prediction with `is_valid = true` and a non-finite (NaN) energy is
attached. -/
theorem claim_C6_counterexample :
    ∃ r, combine_energy Weights.intensity false evC6 = Except.ok r
      ∧ r.is_valid = true ∧ r.energy = Option.none := by
  have hcol : collect_energy Weights.intensity evC6.dl1tel evC6.dl2tel
      = .ok ([1], [3], [0]) := rfl
  have hused : usedWeights [(0 : ℝ)] = [Option.none] := by
    unfold usedWeights
    simp only [List.map_cons, List.map_nil]
    rw [if_pos (show npMax [(0 : ℝ)] = 0 from rfl)]
  have havg : npAverageNaN [(3 : ℝ)] [Option.none] = .ok Option.none := rfl
  have hcov : npCovNaN [(3 : ℝ)] [Option.none] = .ok Option.none := rfl
  refine ⟨⟨Option.none, Option.none, [1], true⟩, ?_, rfl, rfl⟩
  simp only [combine_energy, hcol, List.length_cons, List.length_nil,
    Nat.zero_lt_succ, if_pos, Bool.false_eq_true, if_false, hused, havg,
    hcov, Option.map_none']

/-- Claim C6 (amended): every stereo prediction produced by any combine
operation satisfies the validity invariant — `is_valid = true` implies the
combined value(s) are present (finite reals) and `is_valid = false` implies
they are NaN — with one exception forced by the counterexample: the
event-wise energy path guarantees this only when the maximum collected
weight is nonzero; with an all-zero weight vector the normalised weights
are non-finite and a NaN energy is attached as valid.  (The energy
uncertainty is a separate field and not part of the combined value — see
claim C10.) -/
theorem claim_C6 :
    (∀ (w : Weights) (log_target : Bool) (rows : List MonoRow) r,
        r ∈ predict_table_energy w log_target rows →
        (r.is_valid = true → r.energy.isSome = true)
        ∧ (r.is_valid = false → r.energy = Option.none))
    ∧ (∀ (w : Weights) (rows : List MonoRow) r,
        r ∈ predict_table_classification w rows →
        (r.is_valid = true → r.prediction.isSome = true)
        ∧ (r.is_valid = false → r.prediction = Option.none))
    ∧ (∀ (w : Weights) (rows : List MonoRow) r,
        r ∈ predict_table_geometry w rows →
        (r.is_valid = true → r.alt.isSome = true ∧ r.az.isSome = true)
        ∧ (r.is_valid = false → r.alt = Option.none ∧ r.az = Option.none))
    ∧ (∀ (w : Weights) (log_target : Bool) (ev : ArrayEvent) acc r,
        collect_energy w ev.dl1tel ev.dl2tel = Except.ok acc →
        npMax acc.2.2 ≠ 0 →
        combine_energy w log_target ev = Except.ok r →
        (r.is_valid = true → r.energy.isSome = true)
        ∧ (r.is_valid = false → r.energy = Option.none))
    ∧ (∀ (w : Weights) (ev : ArrayEvent) r,
        combine_classification w ev = Except.ok r →
        (r.is_valid = true → r.prediction.isSome = true)
        ∧ (r.is_valid = false → r.prediction = Option.none))
    ∧ (∀ (w : Weights) (ev : ArrayEvent) r,
        combine_disp w ev = Except.ok r →
        (r.is_valid = true → r.alt.isSome = true ∧ r.az.isSome = true)
        ∧ (r.is_valid = false → r.alt = Option.none ∧ r.az = Option.none)) := by
  refine ⟨?_, ?_, ?_, ?_, ?_, ?_⟩
  · intro w log_target rows r hr
    unfold predict_table_energy at hr
    obtain ⟨i, hi, rfl⟩ := List.mem_map.mp hr
    exact ⟨fun h => h, fun h => isSome_false_eq_none h⟩
  · intro w rows r hr
    unfold predict_table_classification at hr
    obtain ⟨i, hi, rfl⟩ := List.mem_map.mp hr
    exact ⟨fun h => h, fun h => isSome_false_eq_none h⟩
  · intro w rows r hr
    unfold predict_table_geometry at hr
    obtain ⟨i, hi, rfl⟩ := List.mem_map.mp hr
    constructor
    · intro h
      exact Bool.and_eq_true .. |>.mp h
    · intro h
      have ho : ((geometry_altaz w rows).getD i Option.none).isSome
          = false := by
        have := h
        rw [Option.isSome_map', Option.isSome_map', Bool.and_self] at this
        exact this
      rw [isSome_false_eq_none ho]
      exact ⟨rfl, rfl⟩
  · intro w log_target ev acc r hcol hM h
    obtain ⟨ids, values, weights0⟩ := acc
    unfold combine_energy at h
    rw [hcol] at h
    dsimp only at h
    have hws : usedWeights weights0
        = (weights0.map fun w => w / npMax weights0).map some := by
      rw [usedWeights_of_max_ne weights0 hM, List.map_map]
      rfl
    rw [hws] at h
    split at h
    · split at h
      · exact absurd h (by simp)
      · rename_i mean0 heq
        obtain ⟨x, rfl⟩ := npAverageNaN_map_some_isSome heq
        split at h
        · exact absurd h (by simp)
        · split at h
          · rw [Except.ok.injEq] at h
            subst h
            exact ⟨fun _ => rfl, fun hf => absurd hf (by simp)⟩
          · rw [Except.ok.injEq] at h
            subst h
            exact ⟨fun _ => rfl, fun hf => absurd hf (by simp)⟩
    · rw [Except.ok.injEq] at h
      subst h
      exact ⟨fun ht => absurd ht (by simp), fun _ => rfl⟩
  · intro w ev r h
    unfold combine_classification at h
    dsimp only at h
    split at h
    · split at h
      · exact absurd h (by simp)
      · rw [Except.ok.injEq] at h
        subst h
        exact ⟨fun _ => rfl, fun hf => absurd hf (by simp)⟩
    · rw [Except.ok.injEq] at h
      subst h
      exact ⟨fun ht => absurd ht (by simp), fun _ => rfl⟩
  · intro w ev r h
    unfold combine_disp at h
    dsimp only at h
    split at h
    · split at h
      · exact absurd h (by simp)
      · split at h
        · exact absurd h (by simp)
        · split at h
          · exact absurd h (by simp)
          · rw [Except.ok.injEq] at h
            subst h
            exact ⟨fun _ => ⟨rfl, rfl⟩, fun hf => absurd hf (by simp)⟩
    · rw [Except.ok.injEq] at h
      subst h
      exact ⟨fun ht => absurd ht (by simp), fun _ => ⟨rfl, rfl⟩⟩

/-- Two-telescope array event whose energy prediction is valid only for
telescope 5, with DL1 parameters present for it. -/
noncomputable def evC10 : ArrayEvent :=
  ⟨[(5, some ⟨⟨100, 2, 6⟩⟩)],
   [(4, ⟨⟨3, false⟩, ⟨0, false⟩, ⟨0, 0, false⟩⟩),
    (5, ⟨⟨7, true⟩, ⟨0, false⟩, ⟨0, 0, false⟩⟩)]⟩

theorem claim_C10_witness :
    evC10.dl2tel.filter (fun q => q.2.energy.is_valid)
        = [(5, ⟨⟨7, true⟩, ⟨0, false⟩, ⟨0, 0, false⟩⟩)]
    ∧ combine_energy Weights.intensity false evC10
        = Except.ok ⟨some 7, Option.none, [5], true⟩ :=
  ⟨rfl, claim_C10 Weights.intensity evC10 5
    ⟨⟨7, true⟩, ⟨0, false⟩, ⟨0, 0, false⟩⟩ ⟨⟨100, 2, 6⟩⟩ rfl rfl
    (by norm_num [weight_of_parameters])⟩

theorem claim_C6_witness :
    combine_classification Weights.none ⟨[], []⟩
        = Except.ok ⟨Option.none, [], false⟩
    ∧ (⟨Option.none, [], false⟩ : StereoClassification).prediction
        = Option.none := by
  have h : combine_classification Weights.none ⟨[], []⟩
      = Except.ok ⟨Option.none, [], false⟩ := rfl
  exact ⟨h, (claim_C6.2.2.2.2.1 Weights.none ⟨[], []⟩
    ⟨Option.none, [], false⟩ h).2 rfl⟩
